import Mathlib

/-!
Shallow embedding of the ProLiteMeet signaling layer.

The server side follows the Socket.IO signaling server (`rooms` /
`participants` maps, the `join-room`, `webrtc-offer`, `webrtc-answer`,
`webrtc-ice-candidate`, `send-message`, `toggle-audio`, `toggle-video`,
`start-screen-share`, `stop-screen-share`, `disconnect` and `leave-room`
handlers).  JavaScript `Map`s are embedded as association lists with
insertion-order updates, which is observationally faithful for the
`get` / `set` / `has` / `delete` operations the server uses.

Socket.IO transport semantics embedded here: every connected socket is a
member of a channel named by its own id; `socket.join` / `socket.leave`
add and remove channel memberships; `socket.to(c).emit(e)` delivers `e`
to every connected member of channel `c` except the emitting socket;
`io.to(c).emit(e)` delivers to every connected member including the
emitter; `socket.emit(e)` delivers to the socket itself only.  When the
`disconnect` event fires the socket has already been removed from all of
its channels and from the connected set.

The client side embeds the `handleIceCandidate` path of
`WebRTCManager.ts`: `peerConnections` is a map from remote socket id to
a peer-connection record, and `RTCPeerConnection.addIceCandidate`
rejects (InvalidStateError) when no remote description has been set, an
error the source catches and logs, leaving the state unchanged.
-/

namespace ProLiteMeet

/-- Lookup in a JavaScript-Map-like association list. -/
def mapGet {α : Type} (m : List (String × α)) (k : String) : Option α :=
  match m with
  | [] => none
  | (k', v) :: rest => if k' == k then some v else mapGet rest k

/-- Update in a JavaScript-Map-like association list: replace the entry in
place when the key is present, append otherwise. -/
def mapSet {α : Type} (m : List (String × α)) (k : String) (v : α) :
    List (String × α) :=
  match m with
  | [] => [(k, v)]
  | (k', v') :: rest =>
    if k' == k then (k, v) :: rest else (k', v') :: mapSet rest k v

/-- Deletion from a JavaScript-Map-like association list. -/
def mapDelete {α : Type} (m : List (String × α)) (k : String) :
    List (String × α) :=
  m.filter (fun kv => kv.1 != k)

/-- Key-membership test, the embedding of `Map.prototype.has`. -/
def mapHas {α : Type} (m : List (String × α)) (k : String) : Bool :=
  m.any (fun kv => kv.1 == k)


/-- Participant record as built by the `join-room` handler. -/
structure Participant where
  id : String
  userName : String
  joinedAt : Nat
  isAudioMuted : Bool
  isVideoOff : Bool
deriving DecidableEq, Repr

/-- Chat message record as built by the `send-message` handler. -/
structure ChatMessage where
  id : String
  senderId : String
  userName : String
  message : String
  timestamp : Nat
deriving DecidableEq, Repr

/-- Room record as stored in the server's `rooms` map. -/
structure Room where
  id : String
  participants : List Participant
  messages : List ChatMessage
  createdAt : Nat
deriving DecidableEq, Repr

/-- Value stored in the server's `participants` map (socket id to room). -/
structure PInfo where
  roomId : String
  userName : String
deriving DecidableEq, Repr

/-- Server-to-client events emitted by the gateway. -/
inductive Event where
  | joinedRoom (roomId : String) (participantId : String)
      (parts : List Participant) (msgs : List ChatMessage)
  | userJoined (participantId userName : String) (participant : Participant)
  | participantsUpdated (parts : List Participant)
  | webrtcOfferEv (senderId : String) (offer : String)
  | webrtcAnswerEv (senderId : String) (answer : String)
  | webrtcIceCandidateEv (senderId : String) (candidate : String)
  | errorMsg (message : String)
  | newMessage (msg : ChatMessage)
  | participantAudioToggled (participantId : String) (isAudioMuted : Bool)
  | participantVideoToggled (participantId : String) (isVideoOff : Bool)
  | userStartedScreenShare (participantId : String)
  | userStoppedScreenShare (participantId : String)
  | userLeft (participantId userName : String)
  | leftRoom (roomId : String)
deriving DecidableEq, Repr

/-- One delivery of an event to a single transport session; `dest` is the
receiving socket id. -/
structure Emit where
  dest : String
  ev : Event
deriving DecidableEq, Repr

/-- Whole-server state: connected sockets, Socket.IO channel memberships,
the `rooms` map and the `participants` map. -/
structure ServerState where
  connected : List String
  channels : List (String × String)
  rooms : List (String × Room)
  participants : List (String × PInfo)
deriving DecidableEq, Repr

/-- The state of the server at process start: no sockets, no rooms. -/
def initState : ServerState := ⟨[], [], [], []⟩

/-- Connected members of a Socket.IO channel, in connection order. -/
def channelSockets (st : ServerState) (c : String) : List String :=
  st.connected.filter (fun x => st.channels.any (fun q => q.1 == x && q.2 == c))

/-- Embedding of `socket.to(c).emit(ev)`: deliver to every connected member
of channel `c` except the sender. -/
def emitExcept (st : ServerState) (c sender : String) (ev : Event) : List Emit :=
  ((channelSockets st c).filter (fun x => x != sender)).map (fun r => ⟨r, ev⟩)

/-- Embedding of `io.to(c).emit(ev)`: deliver to every connected member of
channel `c`, the sender included. -/
def emitAll (st : ServerState) (c : String) (ev : Event) : List Emit :=
  (channelSockets st c).map (fun r => ⟨r, ev⟩)

/-- A new socket connection: the socket becomes connected and is placed in
the channel named by its own id (Socket.IO default behaviour). -/
def connectSocket (st : ServerState) (s : String) : ServerState :=
  { st with
    connected := if st.connected.contains s then st.connected
                 else st.connected ++ [s]
    channels := if st.channels.contains (s, s) then st.channels
                else st.channels ++ [(s, s)] }

/-- Embedding of `socket.join(c)`. -/
def socketJoin (st : ServerState) (s c : String) : ServerState :=
  { st with
    channels := if st.channels.contains (s, c) then st.channels
                else st.channels ++ [(s, c)] }

/-- Embedding of `socket.leave(c)`. -/
def socketLeave (st : ServerState) (s c : String) : ServerState :=
  { st with channels := st.channels.filter (fun q => !(q.1 == s && q.2 == c)) }

/-- The `join-room` handler: lazily create the room, push the new
participant, record the socket-to-room mapping, join the Socket.IO
channel, then emit `joined-room` to the caller, `user-joined` to the rest
of the room and `participants-updated` to the whole room. -/
def joinRoom (st : ServerState) (s roomId userName : String) (now : Nat) :
    ServerState × List Emit :=
  let rooms1 := if mapHas st.rooms roomId then st.rooms
                else mapSet st.rooms roomId ⟨roomId, [], [], now⟩
  match mapGet rooms1 roomId with
  | none => ({ st with rooms := rooms1 }, [])
  | some room =>
    let participant : Participant := ⟨s, userName, now, false, false⟩
    let room' := { room with participants := room.participants ++ [participant] }
    let st2 := { st with
      rooms := mapSet rooms1 roomId room'
      participants := mapSet st.participants s ⟨roomId, userName⟩ }
    let st3 := socketJoin st2 s roomId
    (st3,
      ⟨s, .joinedRoom roomId s room'.participants room'.messages⟩ ::
        (emitExcept st3 roomId s (.userJoined s userName participant) ++
          emitAll st3 roomId (.participantsUpdated room'.participants)))

/-- The `webrtc-offer` handler: `socket.to(targetId)` relay tagged with the
sender's id; no state is read or written. -/
def webrtcOffer (st : ServerState) (s targetId offer : String) :
    ServerState × List Emit :=
  (st, emitExcept st targetId s (.webrtcOfferEv s offer))

/-- The `webrtc-answer` handler. -/
def webrtcAnswer (st : ServerState) (s targetId answer : String) :
    ServerState × List Emit :=
  (st, emitExcept st targetId s (.webrtcAnswerEv s answer))

/-- The `webrtc-ice-candidate` handler. -/
def webrtcIceCandidate (st : ServerState) (s targetId candidate : String) :
    ServerState × List Emit :=
  (st, emitExcept st targetId s (.webrtcIceCandidateEv s candidate))

/-- The `send-message` handler: error event to the caller when the room is
unknown, otherwise append a fresh chat message to the room history and
broadcast `new-message` to the whole room channel. -/
def sendMessage (st : ServerState) (s roomId message userName freshId : String)
    (now : Nat) : ServerState × List Emit :=
  match mapGet st.rooms roomId with
  | none => (st, [⟨s, .errorMsg "Room not found"⟩])
  | some room =>
    let chatMessage : ChatMessage := ⟨freshId, s, userName, message, now⟩
    let room' := { room with messages := room.messages ++ [chatMessage] }
    let st' := { st with rooms := mapSet st.rooms roomId room' }
    (st', emitAll st' roomId (.newMessage chatMessage))

/-- Mutation performed by `room.participants.find(p => p.id === s)` followed
by an assignment to `isAudioMuted`: only the first matching record changes. -/
def updateFirstAudio (l : List Participant) (s : String) (v : Bool) :
    List Participant :=
  match l with
  | [] => []
  | p :: rest =>
    if p.id == s then { p with isAudioMuted := v } :: rest
    else p :: updateFirstAudio rest s v

/-- Mutation performed by the `toggle-video` handler's `find` + assignment. -/
def updateFirstVideo (l : List Participant) (s : String) (v : Bool) :
    List Participant :=
  match l with
  | [] => []
  | p :: rest =>
    if p.id == s then { p with isVideoOff := v } :: rest
    else p :: updateFirstVideo rest s v

/-- The `toggle-audio` handler: look the room up, find the caller's own
participant record, set its flag and notify the rest of the room. -/
def toggleAudio (st : ServerState) (s roomId : String) (v : Bool) :
    ServerState × List Emit :=
  match mapGet st.rooms roomId with
  | none => (st, [])
  | some room =>
    if room.participants.any (fun p => p.id == s) then
      let room' := { room with participants := updateFirstAudio room.participants s v }
      ({ st with rooms := mapSet st.rooms roomId room' },
        emitExcept st roomId s (.participantAudioToggled s v))
    else (st, [])

/-- The `toggle-video` handler. -/
def toggleVideo (st : ServerState) (s roomId : String) (v : Bool) :
    ServerState × List Emit :=
  match mapGet st.rooms roomId with
  | none => (st, [])
  | some room =>
    if room.participants.any (fun p => p.id == s) then
      let room' := { room with participants := updateFirstVideo room.participants s v }
      ({ st with rooms := mapSet st.rooms roomId room' },
        emitExcept st roomId s (.participantVideoToggled s v))
    else (st, [])

/-- The `start-screen-share` handler: notification only, no state change. -/
def startScreenShare (st : ServerState) (s roomId : String) :
    ServerState × List Emit :=
  (st, emitExcept st roomId s (.userStartedScreenShare s))

/-- The `stop-screen-share` handler. -/
def stopScreenShare (st : ServerState) (s roomId : String) :
    ServerState × List Emit :=
  (st, emitExcept st roomId s (.userStoppedScreenShare s))

/-- The `disconnect` handler.  By the time it runs the transport has removed
the socket from all channels and from the connected set; the handler body
then removes the participant from its room, notifies the remaining members,
deletes the room when it became empty, and deletes the socket's entry in
the `participants` map. -/
def disconnectH (st : ServerState) (s : String) : ServerState × List Emit :=
  let conn0 := st.connected.filter (fun x => x != s)
  let chan0 := st.channels.filter (fun q => q.1 != s)
  match mapGet st.participants s with
  | none => ({ st with connected := conn0, channels := chan0 }, [])
  | some info =>
    match mapGet st.rooms info.roomId with
    | none =>
      ({ st with
          connected := conn0
          channels := chan0
          participants := mapDelete st.participants s }, [])
    | some room =>
      let room' := { room with
        participants := room.participants.filter (fun p => p.id != s) }
      let stMid := { st with
        connected := conn0
        channels := chan0
        rooms := mapSet st.rooms info.roomId room' }
      let ems :=
        emitExcept stMid info.roomId s (.userLeft s info.userName) ++
          emitAll stMid info.roomId (.participantsUpdated room'.participants)
      let roomsFin :=
        if room'.participants.isEmpty then mapDelete stMid.rooms info.roomId
        else stMid.rooms
      ({ st with
          connected := conn0
          channels := chan0
          rooms := roomsFin
          participants := mapDelete st.participants s }, ems)

/-- The `leave-room` handler: when the stored mapping matches the given
room id, leave the Socket.IO channel and acknowledge with `left-room`;
nothing else is touched. -/
def leaveRoom (st : ServerState) (s roomId : String) : ServerState × List Emit :=
  match mapGet st.participants s with
  | none => (st, [])
  | some info =>
    if info.roomId == roomId then
      (socketLeave st s roomId, [⟨s, .leftRoom roomId⟩])
    else (st, [])

/-- Membership events of the gateway: a transport connection, a
`join-room`, a `leave-room`, or a transport `disconnect`. -/
inductive REvent where
  | connect (s : String)
  | join (s roomId userName : String) (now : Nat)
  | leave (s roomId : String)
  | disc (s : String)
deriving DecidableEq, Repr

/-- The state transition performed by one membership event (the emitted
deliveries are discarded). -/
def step (st : ServerState) : REvent → ServerState
  | .connect s => connectSocket st s
  | .join s roomId userName now => (joinRoom st s roomId userName now).1
  | .leave s roomId => (leaveRoom st s roomId).1
  | .disc s => (disconnectH st s).1

/-- Run a sequence of membership events from a state. -/
def runTrace (st : ServerState) : List REvent → ServerState
  | [] => st
  | e :: rest => runTrace (step st e) rest

/-- A `join-room` is guarded when the joining socket is not currently
mapped to any room: the session issues at most one active join. -/
def Guard (st : ServerState) : REvent → Prop
  | .join s _ _ _ => mapGet st.participants s = none
  | _ => True

/-- A trace is admissible from a state when every event is guarded in the
state it runs in. -/
def OkFrom (st : ServerState) : List REvent → Prop
  | [] => True
  | e :: rest => Guard st e ∧ OkFrom (step st e) rest

instance decGuard (st : ServerState) (e : REvent) : Decidable (Guard st e) :=
  match e with
  | .connect _ => isTrue trivial
  | .join s _ _ _ =>
    inferInstanceAs (Decidable (mapGet st.participants s = none))
  | .leave _ _ => isTrue trivial
  | .disc _ => isTrue trivial

instance decOkFrom (st : ServerState) (evs : List REvent) :
    Decidable (OkFrom st evs) :=
  match evs with
  | [] => isTrue trivial
  | e :: rest =>
    @instDecidableAnd _ _ (decGuard st e) (decOkFrom (step st e) rest)

/-- The participant id `s` sits in the roster of the room stored under key
`k`. -/
def IdInRoom (st : ServerState) (k s : String) : Prop :=
  ∃ r, mapGet st.rooms k = some r ∧ s ∈ r.participants.map Participant.id

instance decIdInRoom (st : ServerState) (k s : String) :
    Decidable (IdInRoom st k s) :=
  match h : mapGet st.rooms k with
  | none => isFalse (fun ⟨r, hr, _⟩ => by rw [h] at hr; exact Option.noConfusion hr)
  | some r =>
    match inferInstanceAs (Decidable (s ∈ r.participants.map Participant.id)) with
    | isTrue hm => isTrue ⟨r, h, hm⟩
    | isFalse hm => isFalse (fun ⟨r', hr', hm'⟩ => by
        rw [h] at hr'
        cases hr'
        exact hm hm')

/-- Two participant lists agree at every position whose original occupant is
not the socket `s`: positions other than the caller's are untouched. -/
def UnchangedOff (s : String) (old new : List Participant) : Prop :=
  new.length = old.length ∧
    ∀ i (hi : i < old.length) (hi' : i < new.length),
      (old.get ⟨i, hi⟩).id ≠ s → new.get ⟨i, hi'⟩ = old.get ⟨i, hi⟩

/-- Concrete reachable server state used as a witness environment: sockets
`a` and `b` are connected and have both joined room `R`. -/
def st2W : ServerState :=
  (joinRoom ((joinRoom (connectSocket (connectSocket initState "a") "b")
    "a" "R" "A" 0).1) "b" "R" "B" 1).1

/-- Concrete reachable server state with a single member `a` of room `R`. -/
def st1W : ServerState :=
  (joinRoom (connectSocket initState "a") "a" "R" "A" 0).1

/-- Concrete reachable server state with three members `a`, `b`, `c` of
room `R`. -/
def st3W : ServerState :=
  (joinRoom ((joinRoom ((joinRoom
    (connectSocket (connectSocket (connectSocket initState "a") "b") "c")
    "a" "R" "A" 0).1) "b" "R" "B" 1).1) "c" "R" "C" 2).1

/-- The state `st3W` after `c` has issued an explicit `leave-room`: `c` is
still in the roster but no longer subscribed to the room channel. -/
def st3LW : ServerState :=
  (leaveRoom st3W "c" "R").1

/-- Concrete reachable server state where `a` and `b` are connected but
sit in two different rooms. -/
def stDiffW : ServerState :=
  (joinRoom ((joinRoom (connectSocket (connectSocket initState "a") "b")
    "a" "R1" "A" 0).1) "b" "R2" "B" 1).1

/-- Guarded event trace used as a witness for the membership invariant. -/
def c6trW : List REvent :=
  [.connect "a", .join "a" "R" "A" 0, .connect "b", .join "b" "R" "B" 1]

/-- Membership invariant: every participant record sitting in some room's
roster is the participant the `participants` map sends to exactly that
room. -/
def Inv (st : ServerState) : Prop :=
  ∀ k r p, mapGet st.rooms k = some r → p ∈ r.participants →
    ∃ info, mapGet st.participants p.id = some info ∧ info.roomId = k

/-- Client-side peer connection record for `WebRTCManager`: the remote
session description, when one has been applied, and the ICE candidates
successfully added so far. -/
structure PeerConn where
  remoteDescription : Option String
  addedCandidates : List String
deriving DecidableEq, Repr

/-- Client-side `WebRTCManager` state: the `peerConnections` map keyed by
remote socket id. -/
structure ManagerState where
  peerConnections : List (String × PeerConn)
deriving DecidableEq, Repr

/-- Embedding of `RTCPeerConnection.addIceCandidate`: per the WebRTC
specification the returned promise rejects with `InvalidStateError` when
no remote description has been set, and otherwise the candidate is added. -/
def addIceCandidate (pc : PeerConn) (candidate : String) :
    Except String PeerConn :=
  match pc.remoteDescription with
  | none => .error "InvalidStateError"
  | some _ => .ok { pc with addedCandidates := pc.addedCandidates ++ [candidate] }

/-- The `handleIceCandidate` method of `WebRTCManager`: when no peer
connection exists for the sender the candidate is dropped with a logged
error; otherwise `addIceCandidate` is awaited inside a `try`/`catch`, so a
rejection also leaves the state unchanged. -/
def handleIceCandidate (st : ManagerState) (candidate senderSocketId : String) :
    ManagerState :=
  match mapGet st.peerConnections senderSocketId with
  | none => st
  | some pc =>
    match addIceCandidate pc candidate with
    | .ok pc' =>
      { st with peerConnections := mapSet st.peerConnections senderSocketId pc' }
    | .error _ => st

-- ## Basic lemmas about the embedded JavaScript Map and list operations

theorem mapGet_set_self {α : Type} (m : List (String × α)) (k : String) (v : α) :
    mapGet (mapSet m k v) k = some v := by
  induction m with
  | nil => simp [mapGet, mapSet]
  | cons kv rest ih =>
    obtain ⟨k', v'⟩ := kv
    by_cases h : k' = k
    · subst h; simp [mapGet, mapSet]
    · simp [mapGet, mapSet, h, ih]

theorem mapGet_set_other {α : Type} (m : List (String × α)) (k k' : String)
    (v : α) (h : k' ≠ k) : mapGet (mapSet m k v) k' = mapGet m k' := by
  have h' : k ≠ k' := Ne.symm h
  induction m with
  | nil => simp [mapGet, mapSet, h']
  | cons kv rest ih =>
    obtain ⟨a, b⟩ := kv
    by_cases ha : a = k
    · subst ha
      simp [mapGet, mapSet, h']
    · simp [mapGet, mapSet, ha, ih]

theorem mapGet_delete_self {α : Type} (m : List (String × α)) (k : String) :
    mapGet (mapDelete m k) k = none := by
  induction m with
  | nil => simp [mapGet, mapDelete]
  | cons kv rest ih =>
    obtain ⟨a, b⟩ := kv
    by_cases ha : a = k
    · subst ha; simpa [mapDelete, mapGet] using ih
    · simpa [mapDelete, mapGet, ha] using ih

theorem mapGet_delete_other {α : Type} (m : List (String × α)) (k k' : String)
    (h : k' ≠ k) : mapGet (mapDelete m k) k' = mapGet m k' := by
  have h' : k ≠ k' := Ne.symm h
  induction m with
  | nil => simp [mapGet, mapDelete]
  | cons kv rest ih =>
    obtain ⟨a, b⟩ := kv
    by_cases ha : a = k
    · subst ha; simpa [mapDelete, mapGet, h'] using ih
    · have ih' := ih
      simp only [mapDelete] at ih'
      simp [mapDelete, mapGet, ha, ih']

theorem mapHas_eq_isSome {α : Type} (m : List (String × α)) (k : String) :
    mapHas m k = (mapGet m k).isSome := by
  induction m with
  | nil => simp [mapHas, mapGet]
  | cons kv rest ih =>
    obtain ⟨a, b⟩ := kv
    by_cases ha : a = k
    · subst ha; simp [mapHas, mapGet]
    · have hb : (a == k) = false := beq_eq_false_iff_ne.mpr ha
      have ih' := ih
      simp only [mapHas] at ih'
      simp [mapHas, mapGet, hb, ha, ih']

theorem filter_idem {α : Type} (p : α → Bool) (l : List α) :
    (l.filter p).filter p = l.filter p := by
  induction l with
  | nil => rfl
  | cons a rest ih =>
    by_cases h : p a
    · simp [List.filter, h, ih]
    · simp [List.filter, h, ih]


-- ## Preservation of the membership invariant

theorem inv_initState : Inv initState := by
  intro k r p hk
  simp [initState, mapGet] at hk

theorem inv_connect (st : ServerState) (s : String) (hInv : Inv st) :
    Inv (connectSocket st s) := by
  intro k r p hk hp
  exact hInv k r p hk hp

theorem inv_leave (st : ServerState) (s roomId : String) (hInv : Inv st) :
    Inv ((leaveRoom st s roomId).1) := by
  unfold leaveRoom
  cases hpi : mapGet st.participants s with
  | none => exact hInv
  | some info =>
    by_cases hr : info.roomId = roomId
    · simpa [hr, socketLeave] using fun k r p hk hp => hInv k r p hk hp
    · simpa [hr] using hInv

theorem socketJoin_rooms (st : ServerState) (s c : String) :
    (socketJoin st s c).rooms = st.rooms := rfl

theorem socketJoin_participants (st : ServerState) (s c : String) :
    (socketJoin st s c).participants = st.participants := rfl

theorem joinRoom_fields (st : ServerState) (s roomId userName : String)
    (now : Nat) (room : Room)
    (hroom : mapGet (if mapHas st.rooms roomId then st.rooms
        else mapSet st.rooms roomId ⟨roomId, [], [], now⟩) roomId = some room) :
    (joinRoom st s roomId userName now).1.rooms =
      mapSet (if mapHas st.rooms roomId then st.rooms
          else mapSet st.rooms roomId ⟨roomId, [], [], now⟩) roomId
        { room with participants :=
            room.participants ++ [⟨s, userName, now, false, false⟩] } ∧
    (joinRoom st s roomId userName now).1.participants =
      mapSet st.participants s ⟨roomId, userName⟩ := by
  unfold joinRoom
  simp only [hroom]
  exact ⟨rfl, rfl⟩

theorem inv_join (st : ServerState) (s roomId userName : String) (now : Nat)
    (hInv : Inv st) (hg : mapGet st.participants s = none) :
    Inv ((joinRoom st s roomId userName now).1) := by
  have hasRoom : ∀ r p, mapGet (if mapHas st.rooms roomId then st.rooms
      else mapSet st.rooms roomId ⟨roomId, [], [], now⟩) roomId = some r →
      p ∈ r.participants →
      ∃ info, mapGet st.participants p.id = some info ∧ info.roomId = roomId := by
    intro r p hr hp
    by_cases hhas : mapHas st.rooms roomId = true
    · rw [if_pos hhas] at hr
      exact hInv roomId r p hr hp
    · rw [if_neg hhas, mapGet_set_self] at hr
      cases hr
      simp at hp
  have hotherRoom : ∀ k r p, k ≠ roomId →
      mapGet (if mapHas st.rooms roomId then st.rooms
        else mapSet st.rooms roomId ⟨roomId, [], [], now⟩) k = some r →
      p ∈ r.participants →
      ∃ info, mapGet st.participants p.id = some info ∧ info.roomId = k := by
    intro k r p hkk hr hp
    by_cases hhas : mapHas st.rooms roomId = true
    · rw [if_pos hhas] at hr
      exact hInv k r p hr hp
    · rw [if_neg hhas, mapGet_set_other _ _ _ _ hkk] at hr
      exact hInv k r p hr hp
  have hsome : (mapGet (if mapHas st.rooms roomId then st.rooms
      else mapSet st.rooms roomId ⟨roomId, [], [], now⟩) roomId).isSome := by
    by_cases hhas : mapHas st.rooms roomId = true
    · rw [if_pos hhas, ← mapHas_eq_isSome]; exact hhas
    · rw [if_neg hhas, mapGet_set_self]; rfl
  obtain ⟨room, hroom⟩ := Option.isSome_iff_exists.mp hsome
  obtain ⟨hrooms, hparts⟩ := joinRoom_fields st s roomId userName now room hroom
  intro k r p hk hp
  rw [hrooms] at hk
  rw [hparts]
  by_cases hkk : k = roomId
  · subst hkk
    rw [mapGet_set_self] at hk
    injection hk with hk
    subst hk
    rcases List.mem_append.mp hp with hmem | hnew
    · obtain ⟨info, hinfo, hrid⟩ := hasRoom room p hroom hmem
      have hpid : p.id ≠ s := by
        intro he; rw [he, hg] at hinfo; exact Option.noConfusion hinfo
      exact ⟨info, by rw [mapGet_set_other _ _ _ _ hpid]; exact hinfo, hrid⟩
    · have hp' : p = ⟨s, userName, now, false, false⟩ := by simpa using hnew
      subst hp'
      exact ⟨⟨k, userName⟩, mapGet_set_self _ _ _, rfl⟩
  · rw [mapGet_set_other _ _ _ _ hkk] at hk
    obtain ⟨info, hinfo, hrid⟩ := hotherRoom k r p hkk hk hp
    have hpid : p.id ≠ s := by
      intro he; rw [he, hg] at hinfo; exact Option.noConfusion hinfo
    exact ⟨info, by rw [mapGet_set_other _ _ _ _ hpid]; exact hinfo, hrid⟩

theorem disconnectH_none_fields (st : ServerState) (s : String)
    (hpi : mapGet st.participants s = none) :
    (disconnectH st s).1.rooms = st.rooms ∧
    (disconnectH st s).1.participants = st.participants := by
  unfold disconnectH
  simp only [hpi]
  constructor <;> trivial

theorem disconnectH_noRoom_fields (st : ServerState) (s : String) (info : PInfo)
    (hpi : mapGet st.participants s = some info)
    (hroom : mapGet st.rooms info.roomId = none) :
    (disconnectH st s).1.rooms = st.rooms ∧
    (disconnectH st s).1.participants = mapDelete st.participants s := by
  unfold disconnectH
  simp only [hpi, hroom]
  constructor <;> trivial

theorem disconnectH_room_fields (st : ServerState) (s : String) (info : PInfo)
    (room : Room) (hpi : mapGet st.participants s = some info)
    (hroom : mapGet st.rooms info.roomId = some room) :
    (disconnectH st s).1.rooms =
      (if (room.participants.filter (fun p => p.id != s)).isEmpty then
          mapDelete (mapSet st.rooms info.roomId
            { room with
              participants := room.participants.filter (fun p => p.id != s) })
            info.roomId
        else mapSet st.rooms info.roomId
          { room with
            participants := room.participants.filter (fun p => p.id != s) }) ∧
    (disconnectH st s).1.participants = mapDelete st.participants s := by
  unfold disconnectH
  simp only [hpi, hroom]
  constructor
  · by_cases hemp :
        (room.participants.filter (fun p => p.id != s)).isEmpty = true
    · simp only [hemp, if_true]
    · simp only [hemp, if_false]
  · trivial

theorem inv_disc (st : ServerState) (s : String) (hInv : Inv st) :
    Inv ((disconnectH st s).1) := by
  cases hpi : mapGet st.participants s with
  | none =>
    obtain ⟨hr, hp⟩ := disconnectH_none_fields st s hpi
    intro k r p hk hmem
    rw [hr] at hk
    rw [hp]
    exact hInv k r p hk hmem
  | some info =>
    cases hroom : mapGet st.rooms info.roomId with
    | none =>
      obtain ⟨hr, hps⟩ := disconnectH_noRoom_fields st s info hpi hroom
      intro k r p hk hmem
      rw [hr] at hk
      rw [hps]
      obtain ⟨info2, hinfo2, hrid2⟩ := hInv k r p hk hmem
      have hpid : p.id ≠ s := by
        intro he
        rw [he, hpi] at hinfo2
        injection hinfo2 with hinfo2
        subst hinfo2
        rw [hrid2, hk] at hroom
        exact Option.noConfusion hroom
      exact ⟨info2, by rw [mapGet_delete_other _ _ _ hpid]; exact hinfo2, hrid2⟩
    | some room =>
      obtain ⟨hr, hps⟩ := disconnectH_room_fields st s info room hpi hroom
      intro k r p hk hmem
      rw [hr] at hk
      rw [hps]
      by_cases hkk : k = info.roomId
      · subst hkk
        by_cases hemp :
            (room.participants.filter (fun p => p.id != s)).isEmpty = true
        · rw [if_pos hemp, mapGet_delete_self] at hk
          exact Option.noConfusion hk
        · rw [if_neg hemp, mapGet_set_self] at hk
          injection hk with hk
          subst hk
          have hp2 := List.mem_filter.mp hmem
          have hpid : p.id ≠ s := by simpa using hp2.2
          obtain ⟨info2, hinfo2, hrid2⟩ := hInv info.roomId room p hroom hp2.1
          exact ⟨info2, by rw [mapGet_delete_other _ _ _ hpid]; exact hinfo2,
            hrid2⟩
      · have hk' : mapGet st.rooms k = some r := by
          by_cases hemp :
              (room.participants.filter (fun p => p.id != s)).isEmpty = true
          · rw [if_pos hemp, mapGet_delete_other _ _ _ hkk,
              mapGet_set_other _ _ _ _ hkk] at hk
            exact hk
          · rw [if_neg hemp, mapGet_set_other _ _ _ _ hkk] at hk
            exact hk
        obtain ⟨info2, hinfo2, hrid2⟩ := hInv k r p hk' hmem
        have hpid : p.id ≠ s := by
          intro he
          rw [he, hpi] at hinfo2
          injection hinfo2 with hinfo2
          subst hinfo2
          exact hkk hrid2.symm
        exact ⟨info2, by rw [mapGet_delete_other _ _ _ hpid]; exact hinfo2,
          hrid2⟩

theorem inv_step (st : ServerState) (e : REvent) (hInv : Inv st)
    (hg : Guard st e) : Inv (step st e) := by
  cases e with
  | connect s => exact inv_connect st s hInv
  | join s roomId userName now => exact inv_join st s roomId userName now hInv hg
  | leave s roomId => exact inv_leave st s roomId hInv
  | disc s => exact inv_disc st s hInv

theorem inv_runTrace (evs : List REvent) : ∀ st : ServerState,
    Inv st → OkFrom st evs → Inv (runTrace st evs) := by
  induction evs with
  | nil => intro st hInv _; exact hInv
  | cons e rest ih =>
    intro st hInv hok
    exact ih (step st e) (inv_step st e hInv hok.1) hok.2

-- ## Channel and relay lemmas

theorem mem_channelSockets (st : ServerState) (c x : String)
    (hx : x ∈ channelSockets st c) :
    x ∈ st.connected ∧ (x, c) ∈ st.channels := by
  unfold channelSockets at hx
  have h1 := List.mem_filter.mp hx
  refine ⟨h1.1, ?_⟩
  obtain ⟨q, hq, hq2⟩ := List.any_eq_true.mp h1.2
  obtain ⟨e1, e2⟩ := Bool.and_eq_true_iff.mp hq2
  have hq' : q = (x, c) := by
    obtain ⟨q1, q2⟩ := q
    simp only [beq_iff_eq] at e1 e2
    simp [e1, e2]
  rw [hq'] at hq
  exact hq

theorem channelSockets_mem_intro (st : ServerState) (c x : String)
    (hconn : x ∈ st.connected) (hch : (x, c) ∈ st.channels) :
    x ∈ channelSockets st c := by
  unfold channelSockets
  refine List.mem_filter.mpr ⟨hconn, ?_⟩
  exact List.any_eq_true.mpr ⟨(x, c), hch, by simp⟩

theorem emitExcept_elim (st : ServerState) (c sender : String) (ev : Event)
    (e : Emit) (he : e ∈ emitExcept st c sender ev) :
    e.ev = ev ∧ e.dest ∈ st.connected ∧ (e.dest, c) ∈ st.channels ∧
      e.dest ≠ sender := by
  unfold emitExcept at he
  obtain ⟨x, hx, hxe⟩ := List.mem_map.mp he
  obtain ⟨hx1, hx2⟩ := List.mem_filter.mp hx
  obtain ⟨hc, hch⟩ := mem_channelSockets st c x hx1
  subst hxe
  exact ⟨rfl, hc, hch, by simpa using hx2⟩

theorem emitExcept_intro (st : ServerState) (c sender : String) (ev : Event)
    (x : String) (hconn : x ∈ st.connected) (hch : (x, c) ∈ st.channels)
    (hne : x ≠ sender) :
    (⟨x, ev⟩ : Emit) ∈ emitExcept st c sender ev := by
  unfold emitExcept
  refine List.mem_map.mpr ⟨x, ?_, rfl⟩
  refine List.mem_filter.mpr ⟨channelSockets_mem_intro st c x hconn hch, ?_⟩
  simpa using hne

theorem emitAll_elim (st : ServerState) (c : String) (ev : Event) (e : Emit)
    (he : e ∈ emitAll st c ev) : e.ev = ev := by
  unfold emitAll at he
  obtain ⟨x, _, hxe⟩ := List.mem_map.mp he
  subst hxe
  rfl

-- ## Lemmas about the join handler's emissions

theorem joinRoom_emits_shape (st : ServerState) (s roomId userName : String)
    (now : Nat) (room : Room)
    (hroom : mapGet (if mapHas st.rooms roomId then st.rooms
        else mapSet st.rooms roomId ⟨roomId, [], [], now⟩) roomId = some room) :
    ∃ stX : ServerState,
      (joinRoom st s roomId userName now).2 =
        ⟨s, .joinedRoom roomId s
          (room.participants ++ [⟨s, userName, now, false, false⟩])
          room.messages⟩ ::
        (emitExcept stX roomId s
            (.userJoined s userName ⟨s, userName, now, false, false⟩) ++
          emitAll stX roomId (.participantsUpdated
            (room.participants ++ [⟨s, userName, now, false, false⟩]))) := by
  refine ⟨socketJoin
    { st with
      rooms := mapSet (if mapHas st.rooms roomId then st.rooms
                        else mapSet st.rooms roomId ⟨roomId, [], [], now⟩)
                 roomId
                 ({ room with participants := room.participants ++
                     [⟨s, userName, now, false, false⟩] })
      participants := mapSet st.participants s ⟨roomId, userName⟩ } s roomId,
    ?_⟩
  unfold joinRoom
  simp only [hroom]

-- ## Lemmas about the disconnect handler's resulting state

theorem disconnectH_conn_chan (st : ServerState) (s : String) :
    (disconnectH st s).1.connected = st.connected.filter (fun x => x != s) ∧
    (disconnectH st s).1.channels = st.channels.filter (fun q => q.1 != s) := by
  cases hpi : mapGet st.participants s with
  | none => unfold disconnectH; simp only [hpi]; constructor <;> trivial
  | some info =>
    cases hroom : mapGet st.rooms info.roomId with
    | none => unfold disconnectH; simp only [hpi, hroom]; constructor <;> trivial
    | some room =>
      unfold disconnectH; simp only [hpi, hroom]; constructor <;> trivial

theorem disconnectH_participants_self (st : ServerState) (s : String) :
    mapGet (disconnectH st s).1.participants s = none := by
  cases hpi : mapGet st.participants s with
  | none => rw [(disconnectH_none_fields st s hpi).2]; exact hpi
  | some info =>
    cases hroom : mapGet st.rooms info.roomId with
    | none =>
      rw [(disconnectH_noRoom_fields st s info hpi hroom).2]
      exact mapGet_delete_self _ _
    | some room =>
      rw [(disconnectH_room_fields st s info room hpi hroom).2]
      exact mapGet_delete_self _ _

-- ## Lemmas about the send-message handler

theorem sendMessage_some (st : ServerState)
    (s roomId message userName freshId : String) (now : Nat) (room : Room)
    (hroom : mapGet st.rooms roomId = some room) :
    (sendMessage st s roomId message userName freshId now).1 =
      { st with rooms := mapSet st.rooms roomId
                           ({ room with messages := room.messages ++
                               [⟨freshId, s, userName, message, now⟩] }) } ∧
    (sendMessage st s roomId message userName freshId now).2 =
      (channelSockets st roomId).map
        (fun r => ⟨r, .newMessage ⟨freshId, s, userName, message, now⟩⟩) := by
  unfold sendMessage
  simp only [hroom]
  constructor
  · trivial
  · rfl

theorem emit_filter_not_mem (ids : List String) (t : String) (ev : Event)
    (h : t ∉ ids) :
    (ids.map (fun x => (⟨x, ev⟩ : Emit))).filter (fun e => e.dest == t) = [] := by
  induction ids with
  | nil => rfl
  | cons a rest ih =>
    have ha : a ≠ t := fun he => h (he ▸ List.mem_cons_self a rest)
    have hrest : t ∉ rest := fun hm => h (List.mem_cons_of_mem a hm)
    have ha' : ((⟨a, ev⟩ : Emit).dest == t) = false := by
      simpa using ha
    simp [List.filter_cons, ha', ih hrest]

theorem emit_filter_count_one (ids : List String) (t : String) (ev : Event)
    (hnd : ids.Nodup) (ht : t ∈ ids) :
    ((ids.map (fun x => (⟨x, ev⟩ : Emit))).filter
      (fun e => e.dest == t)).length = 1 := by
  induction ids with
  | nil => cases ht
  | cons a rest ih =>
    have hnd' := List.nodup_cons.mp hnd
    rcases List.mem_cons.mp ht with he | hmem
    · subst he
      have ht' : ((⟨t, ev⟩ : Emit).dest == t) = true := by simp
      simp [List.filter_cons, ht', emit_filter_not_mem rest t ev hnd'.1]
    · have ha : a ≠ t := by
        intro he; subst he; exact hnd'.1 hmem
      have ha' : ((⟨a, ev⟩ : Emit).dest == t) = false := by simpa using ha
      simp [List.filter_cons, ha', ih hnd'.2 hmem]

-- ## Frame lemmas for the toggle handlers

theorem toggleAudio_rooms_cases (st : ServerState) (s roomId : String)
    (v : Bool) :
    (toggleAudio st s roomId v).1.rooms = st.rooms ∨
    ∃ room, mapGet st.rooms roomId = some room ∧
      (toggleAudio st s roomId v).1.rooms =
        mapSet st.rooms roomId
          ({ room with participants := updateFirstAudio room.participants s v }) := by
  unfold toggleAudio
  cases hroom : mapGet st.rooms roomId with
  | none => left; rfl
  | some room =>
    by_cases hfind : (room.participants.any (fun p => p.id == s)) = true
    · right
      exact ⟨room, rfl, by simp [hfind]⟩
    · left
      simp [hfind]

theorem toggleVideo_rooms_cases (st : ServerState) (s roomId : String)
    (v : Bool) :
    (toggleVideo st s roomId v).1.rooms = st.rooms ∨
    ∃ room, mapGet st.rooms roomId = some room ∧
      (toggleVideo st s roomId v).1.rooms =
        mapSet st.rooms roomId
          ({ room with participants := updateFirstVideo room.participants s v }) := by
  unfold toggleVideo
  cases hroom : mapGet st.rooms roomId with
  | none => left; rfl
  | some room =>
    by_cases hfind : (room.participants.any (fun p => p.id == s)) = true
    · right
      exact ⟨room, rfl, by simp [hfind]⟩
    · left
      simp [hfind]

theorem unchangedOff_refl (s : String) (l : List Participant) :
    UnchangedOff s l l :=
  ⟨rfl, fun _ _ _ _ => rfl⟩

theorem updateFirstAudio_length (l : List Participant) (s : String) (v : Bool) :
    (updateFirstAudio l s v).length = l.length := by
  induction l with
  | nil => rfl
  | cons p rest ih =>
    by_cases hp : (p.id == s) = true
    · simp [updateFirstAudio, hp]
    · simp [updateFirstAudio, hp, ih]

theorem updateFirstVideo_length (l : List Participant) (s : String) (v : Bool) :
    (updateFirstVideo l s v).length = l.length := by
  induction l with
  | nil => rfl
  | cons p rest ih =>
    by_cases hp : (p.id == s) = true
    · simp [updateFirstVideo, hp]
    · simp [updateFirstVideo, hp, ih]

theorem updateFirstAudio_unchanged (l : List Participant) (s : String)
    (v : Bool) : UnchangedOff s l (updateFirstAudio l s v) := by
  refine ⟨updateFirstAudio_length l s v, ?_⟩
  induction l with
  | nil => intro i hi; exact absurd hi (Nat.not_lt_zero i)
  | cons p rest ih =>
    intro i hi hi' hne
    by_cases hp : (p.id == s) = true
    · cases i with
      | zero => exact absurd (beq_iff_eq.mp hp) (by simpa using hne)
      | succ j =>
        simp [updateFirstAudio, hp]
    · cases i with
      | zero => simp [updateFirstAudio, hp]
      | succ j =>
        have hj : j < rest.length := by simpa using hi
        have hj' : j < (updateFirstAudio rest s v).length := by
          rw [updateFirstAudio_length]; exact hj
        have := ih j hj hj' (by simpa using hne)
        simpa [updateFirstAudio, hp] using this

theorem updateFirstVideo_unchanged (l : List Participant) (s : String)
    (v : Bool) : UnchangedOff s l (updateFirstVideo l s v) := by
  refine ⟨updateFirstVideo_length l s v, ?_⟩
  induction l with
  | nil => intro i hi; exact absurd hi (Nat.not_lt_zero i)
  | cons p rest ih =>
    intro i hi hi' hne
    by_cases hp : (p.id == s) = true
    · cases i with
      | zero => exact absurd (beq_iff_eq.mp hp) (by simpa using hne)
      | succ j =>
        simp [updateFirstVideo, hp]
    · cases i with
      | zero => simp [updateFirstVideo, hp]
      | succ j =>
        have hj : j < rest.length := by simpa using hi
        have hj' : j < (updateFirstVideo rest s v).length := by
          rw [updateFirstVideo_length]; exact hj
        have := ih j hj hj' (by simpa using hne)
        simpa [updateFirstVideo, hp] using this

-- ## Claim theorems

/-- C4: the disconnect handling is idempotent: running the `disconnect`
handler a second time for the same socket id leaves the state exactly as
after the first run and emits nothing at all — in particular no second
`user-left` broadcast — so the second invocation is a no-op. -/
theorem C4_disconnect_idempotent (st : ServerState) (s : String) :
    disconnectH ((disconnectH st s).1) s = ((disconnectH st s).1, []) := by
  obtain ⟨hc, hch⟩ := disconnectH_conn_chan st s
  have hps := disconnectH_participants_self st s
  set st1 := (disconnectH st s).1 with hst1
  have h1 : List.filter (fun x => x != s) st1.connected = st1.connected := by
    rw [hc, filter_idem]
  have h2 : List.filter (fun q => q.1 != s) st1.channels = st1.channels := by
    rw [hch, filter_idem]
  unfold disconnectH
  simp only [hps, h1, h2]

/-- C7 counterexample: an explicit `leave-room` does not have the same
effect as a transport disconnect.  In a concrete two-member room, after
participant `a` sends `leave-room` it is still in the room's roster and
still mapped in the `participants` map, and no `user-left` reaches `b`,
whereas a disconnect of `a` removes it from the roster, deletes the
mapping, and notifies `b`. -/
theorem C7_counterexample :
    (mapGet ((leaveRoom st2W "a" "R").1).rooms "R" ≠
      mapGet ((disconnectH st2W "a").1).rooms "R") ∧
    (∃ r, mapGet ((leaveRoom st2W "a" "R").1).rooms "R" = some r ∧
      "a" ∈ r.participants.map Participant.id) ∧
    mapGet ((leaveRoom st2W "a" "R").1).participants "a" =
      some ⟨"R", "A"⟩ ∧
    mapGet ((disconnectH st2W "a").1).participants "a" = none ∧
    (leaveRoom st2W "a" "R").2 = [⟨"a", .leftRoom "R"⟩] ∧
    (disconnectH st2W "a").2.head? = some ⟨"b", .userLeft "a" "A"⟩ := by
  refine ⟨by decide, ⟨⟨"R", [⟨"a", "A", 0, false, false⟩,
    ⟨"b", "B", 1, false, false⟩], [], 0⟩, by decide, by decide⟩,
    by decide, by decide, by decide, by decide⟩

/-- C7 amended: an explicit `leave-room` does not remove the participant
from the room's roster, does not broadcast any `participant-left`
(`user-left`) notification, and does not discard the session-to-room
mapping; when the stored mapping matches the supplied room id it only
detaches the transport socket from the room's channel and acknowledges
the leaver with `left-room`.  Full cleanup happens only in the
`disconnect` handler. -/
theorem C7_amended (st : ServerState) (s roomId : String) (info : PInfo)
    (hpi : mapGet st.participants s = some info)
    (hmatch : info.roomId = roomId) :
    (leaveRoom st s roomId).1.rooms = st.rooms ∧
    (leaveRoom st s roomId).1.participants = st.participants ∧
    (leaveRoom st s roomId).1.connected = st.connected ∧
    (leaveRoom st s roomId).1.channels =
      st.channels.filter (fun q => !(q.1 == s && q.2 == roomId)) ∧
    (leaveRoom st s roomId).2 = [⟨s, .leftRoom roomId⟩] := by
  unfold leaveRoom
  have hb : (info.roomId == roomId) = true := beq_iff_eq.mpr hmatch
  simp only [hpi, hb, if_true]
  refine ⟨?_, ?_, ?_, ?_, ?_⟩ <;> trivial

/-- C7 amended, witness at a concrete state. -/
theorem C7_amended_witness :
    mapGet st2W.participants "a" = some ⟨"R", "A"⟩ ∧
    (leaveRoom st2W "a" "R").1.rooms = st2W.rooms ∧
    (leaveRoom st2W "a" "R").2 = [⟨"a", .leftRoom "R"⟩] :=
  ⟨by decide,
    (C7_amended st2W "a" "R" ⟨"R", "A"⟩ (by decide) rfl).1,
    (C7_amended st2W "a" "R" ⟨"R", "A"⟩ (by decide) rfl).2.2.2.2⟩

/-- C1: relaying an offer, answer or ICE candidate with target `T` changes
no server state, every resulting delivery is addressed to the transport
session `T` itself and carries the sender's id (so it is never broadcast
to other members of any room), and when `T` is not connected the relay is
silently dropped: no delivery at all and no error event.  The hypothesis
states that channel `T` is a private session channel: only socket `T`
itself has joined it (always true of Socket.IO id channels unless a
client joins a room literally named `T`). -/
theorem C1_relay_targeting (st : ServerState) (s T payload : String)
    (hT : ∀ q ∈ st.channels, q.2 = T → q.1 = T) :
    ((webrtcOffer st s T payload).1 = st ∧
      (∀ e ∈ (webrtcOffer st s T payload).2,
        e.dest = T ∧ e.ev = .webrtcOfferEv s payload) ∧
      (T ∉ st.connected → (webrtcOffer st s T payload).2 = [])) ∧
    ((webrtcAnswer st s T payload).1 = st ∧
      (∀ e ∈ (webrtcAnswer st s T payload).2,
        e.dest = T ∧ e.ev = .webrtcAnswerEv s payload) ∧
      (T ∉ st.connected → (webrtcAnswer st s T payload).2 = [])) ∧
    ((webrtcIceCandidate st s T payload).1 = st ∧
      (∀ e ∈ (webrtcIceCandidate st s T payload).2,
        e.dest = T ∧ e.ev = .webrtcIceCandidateEv s payload) ∧
      (T ∉ st.connected → (webrtcIceCandidate st s T payload).2 = [])) := by
  have hdest : ∀ ev (e : Emit), e ∈ emitExcept st T s ev →
      e.dest = T ∧ e.ev = ev := by
    intro ev e he
    obtain ⟨hev, _, hch, _⟩ := emitExcept_elim st T s ev e he
    exact ⟨hT (e.dest, T) hch rfl, hev⟩
  have hdrop : ∀ ev, T ∉ st.connected → emitExcept st T s ev = [] := by
    intro ev hnc
    by_contra hne
    obtain ⟨e, he⟩ := List.exists_mem_of_ne_nil _ hne
    obtain ⟨_, hconn, hch, _⟩ := emitExcept_elim st T s ev e he
    have hdT : e.dest = T := hT (e.dest, T) hch rfl
    rw [hdT] at hconn
    exact hnc hconn
  exact ⟨⟨rfl, hdest _, hdrop _⟩, ⟨rfl, hdest _, hdrop _⟩,
    ⟨rfl, hdest _, hdrop _⟩⟩

/-- C1 witness: at a concrete two-socket state the private-channel
hypothesis holds and the relay to the disconnected id `z` is dropped. -/
theorem C1_relay_targeting_witness :
    (∀ q ∈ st2W.channels, q.2 = "z" → q.1 = "z") ∧
    (webrtcOffer st2W "a" "z" "sdp").2 = [] :=
  ⟨by decide,
    ((C1_relay_targeting st2W "a" "z" "sdp" (by decide)).1).2.2 (by decide)⟩

/-- C2: a room is created lazily by the first `join-room` naming an
unknown id — the joiner receives an empty chat history in its
`joined-room` reply — and a disconnect that empties a room's roster
deletes the room in the same step, so a later join of the same id finds
no room and recreates it fresh. -/
theorem C2_room_lifecycle (stA stB : ServerState)
    (s s2 roomId userName : String) (now : Nat) (info : PInfo) (room : Room) :
    (mapGet stA.rooms roomId = none →
      mapGet (joinRoom stA s roomId userName now).1.rooms roomId =
        some ⟨roomId, [⟨s, userName, now, false, false⟩], [], now⟩ ∧
      (joinRoom stA s roomId userName now).2.head? =
        some ⟨s, .joinedRoom roomId s [⟨s, userName, now, false, false⟩] []⟩) ∧
    (mapGet stB.participants s2 = some info →
      mapGet stB.rooms info.roomId = some room →
      room.participants.filter (fun p => p.id != s2) = [] →
      mapGet (disconnectH stB s2).1.rooms info.roomId = none) := by
  constructor
  · intro hn
    have hhasF : mapHas stA.rooms roomId = false := by
      rw [mapHas_eq_isSome, hn]
      rfl
    have hroom : mapGet (if mapHas stA.rooms roomId then stA.rooms
        else mapSet stA.rooms roomId ⟨roomId, [], [], now⟩) roomId =
        some ⟨roomId, [], [], now⟩ := by
      simp [hhasF, mapGet_set_self]
    obtain ⟨hrooms, _⟩ :=
      joinRoom_fields stA s roomId userName now ⟨roomId, [], [], now⟩ hroom
    constructor
    · rw [hrooms, mapGet_set_self]
      simp
    · obtain ⟨stX, hemits⟩ :=
        joinRoom_emits_shape stA s roomId userName now ⟨roomId, [], [], now⟩
          hroom
      rw [hemits]
      rfl
  · intro hpi hroom hfil
    obtain ⟨hr, _⟩ := disconnectH_room_fields stB s2 info room hpi hroom
    rw [hr]
    have hemp : (room.participants.filter (fun p => p.id != s2)).isEmpty
        = true := by
      rw [hfil]
      rfl
    rw [if_pos hemp, mapGet_delete_self]

/-- C2 witness: joining the fresh id `R` from a one-socket state yields a
room with empty history, and disconnecting the last member of `R` in
`st1W` deletes the room. -/
theorem C2_room_lifecycle_witness :
    mapGet (connectSocket initState "a").rooms "R" = none ∧
    mapGet (joinRoom (connectSocket initState "a") "a" "R" "N" 0).1.rooms
      "R" = some ⟨"R", [⟨"a", "N", 0, false, false⟩], [], 0⟩ ∧
    mapGet (disconnectH st1W "a").1.rooms "R" = none :=
  ⟨by decide,
    ((C2_room_lifecycle (connectSocket initState "a") st1W "a" "a" "R" "N" 0
      ⟨"R", "A"⟩ ⟨"R", [⟨"a", "A", 0, false, false⟩], [], 0⟩).1
      (by decide)).1,
    (C2_room_lifecycle (connectSocket initState "a") st1W "a" "a" "R" "N" 0
      ⟨"R", "A"⟩ ⟨"R", [⟨"a", "A", 0, false, false⟩], [], 0⟩).2
      (by decide) (by decide) (by decide)⟩

/-- C3: a `toggle-audio` or `toggle-video` event from socket `s` mutates at
most the roster record whose id is `s`: in every room, every roster
position whose occupant's id differs from `s` is exactly unchanged,
whatever room id and boolean value the payload carries. -/
theorem C3_toggle_self_only (st : ServerState) (s roomId : String)
    (va vv : Bool) :
    (∀ k r ra, mapGet st.rooms k = some r →
      mapGet (toggleAudio st s roomId va).1.rooms k = some ra →
      UnchangedOff s r.participants ra.participants) ∧
    (∀ k r rv, mapGet st.rooms k = some r →
      mapGet (toggleVideo st s roomId vv).1.rooms k = some rv →
      UnchangedOff s r.participants rv.participants) := by
  constructor
  · intro k r ra hk hka
    rcases toggleAudio_rooms_cases st s roomId va with heq | ⟨room, hroom, heq⟩
    · rw [heq, hk] at hka
      injection hka with hka
      rw [← hka]
      exact unchangedOff_refl s r.participants
    · rw [heq] at hka
      by_cases hkk : k = roomId
      · rw [hkk] at hk hka
        rw [mapGet_set_self] at hka
        rw [hroom] at hk
        injection hk with hk
        injection hka with hka
        rw [← hka, hk]
        exact updateFirstAudio_unchanged r.participants s va
      · rw [mapGet_set_other _ _ _ _ hkk, hk] at hka
        injection hka with hka
        rw [← hka]
        exact unchangedOff_refl s r.participants
  · intro k r rv hk hkv
    rcases toggleVideo_rooms_cases st s roomId vv with heq | ⟨room, hroom, heq⟩
    · rw [heq, hk] at hkv
      injection hkv with hkv
      rw [← hkv]
      exact unchangedOff_refl s r.participants
    · rw [heq] at hkv
      by_cases hkk : k = roomId
      · rw [hkk] at hk hkv
        rw [mapGet_set_self] at hkv
        rw [hroom] at hk
        injection hk with hk
        injection hkv with hkv
        rw [← hkv, hk]
        exact updateFirstVideo_unchanged r.participants s vv
      · rw [mapGet_set_other _ _ _ _ hkk, hk] at hkv
        injection hkv with hkv
        rw [← hkv]
        exact unchangedOff_refl s r.participants

/-- C3 witness: in the two-member room, `a` muting itself leaves `b`'s
positions unchanged. -/
theorem C3_toggle_self_only_witness :
    mapGet st2W.rooms "R" =
      some ⟨"R", [⟨"a", "A", 0, false, false⟩, ⟨"b", "B", 1, false, false⟩],
        [], 0⟩ ∧
    UnchangedOff "a"
      [⟨"a", "A", 0, false, false⟩, ⟨"b", "B", 1, false, false⟩]
      [⟨"a", "A", 0, true, false⟩, ⟨"b", "B", 1, false, false⟩] :=
  ⟨by decide,
    (C3_toggle_self_only st2W "a" "R" true true).1 "R"
      ⟨"R", [⟨"a", "A", 0, false, false⟩, ⟨"b", "B", 1, false, false⟩], [], 0⟩
      ⟨"R", [⟨"a", "A", 0, true, false⟩, ⟨"b", "B", 1, false, false⟩], [], 0⟩
      (by decide) (by decide)⟩

/-- C5 counterexample: in the reachable state `st3LW` room `R` still has
three roster members (`c` issued `leave-room`, which does not remove it
from the roster), yet a `send-message` from `a` yields only two
`new-message` deliveries and `c` receives none — not one delivery per
current member. -/
theorem C5_counterexample :
    (∃ r, mapGet st3LW.rooms "R" = some r ∧ r.participants.length = 3) ∧
    (sendMessage st3LW "a" "R" "hi" "A" "m1" 9).2.length = 2 ∧
    (sendMessage st3LW "a" "R" "hi" "A" "m1" 9).2.filter
      (fun e => e.dest == "c") = [] :=
  ⟨⟨⟨"R", [⟨"a", "A", 0, false, false⟩, ⟨"b", "B", 1, false, false⟩,
      ⟨"c", "C", 2, false, false⟩], [], 0⟩, by decide, by decide⟩,
    by decide, by decide⟩

/-- C5 amended: a `send-message` naming an existing room appends exactly
one chat message to that room's history and emits one `new-message`
carrying that same message (same id, same text) to every socket in the
room's transport channel, the sender included; provided every roster
member is still subscribed to the room channel — which holds unless a
member issued `leave-room` without disconnecting — this is exactly one
delivery per roster member, hence three deliveries in a
three-participant room. -/
theorem C5_chat_fanout (st : ServerState)
    (s roomId text userName freshId : String) (now : Nat) (room : Room)
    (hroom : mapGet st.rooms roomId = some room)
    (hch : channelSockets st roomId = room.participants.map Participant.id)
    (hnd : (room.participants.map Participant.id).Nodup)
    (hs : s ∈ room.participants.map Participant.id) :
    mapGet (sendMessage st s roomId text userName freshId now).1.rooms
      roomId =
      some ({ room with messages := room.messages ++
        [⟨freshId, s, userName, text, now⟩] }) ∧
    (sendMessage st s roomId text userName freshId now).2 =
      (room.participants.map Participant.id).map
        (fun t => ⟨t, .newMessage ⟨freshId, s, userName, text, now⟩⟩) ∧
    (sendMessage st s roomId text userName freshId now).2.length =
      room.participants.length ∧
    (∀ t ∈ room.participants.map Participant.id,
      ((sendMessage st s roomId text userName freshId now).2.filter
        (fun e => e.dest == t)).length = 1) ∧
    (⟨s, .newMessage ⟨freshId, s, userName, text, now⟩⟩ : Emit) ∈
      (sendMessage st s roomId text userName freshId now).2 := by
  obtain ⟨h1, h2⟩ :=
    sendMessage_some st s roomId text userName freshId now room hroom
  refine ⟨?_, ?_, ?_, ?_, ?_⟩
  · rw [h1]
    exact mapGet_set_self _ _ _
  · rw [h2, hch]
  · rw [h2, hch]
    simp
  · intro t ht
    rw [h2, hch]
    exact emit_filter_count_one _ t _ hnd ht
  · rw [h2, hch]
    exact List.mem_map.mpr ⟨s, hs, rfl⟩

/-- C5 witness: the three-member room `st3W` (no leave-room issued):
exactly three deliveries. -/
theorem C5_chat_fanout_witness :
    channelSockets st3W "R" = ["a", "b", "c"] ∧
    (sendMessage st3W "b" "R" "hello" "B" "m1" 9).2.length = 3 :=
  ⟨by decide,
    (C5_chat_fanout st3W "b" "R" "hello" "B" "m1" 9
      ⟨"R", [⟨"a", "A", 0, false, false⟩, ⟨"b", "B", 1, false, false⟩,
        ⟨"c", "C", 2, false, false⟩], [], 0⟩
      (by decide) (by decide) (by decide) (by decide)).2.2.1⟩

/-- C6 counterexample: a socket that issues two `join-room` calls in a row
ends up in both rooms' rosters at once — reachable with join events
alone, refuting the one-room-per-id invariant as stated. -/
theorem C6_counterexample :
    IdInRoom (runTrace initState
      [.connect "a", .join "a" "R1" "n" 0, .join "a" "R2" "n" 1]) "R1" "a" ∧
    IdInRoom (runTrace initState
      [.connect "a", .join "a" "R1" "n" 0, .join "a" "R2" "n" 1]) "R2" "a" ∧
    ("R1" : String) ≠ "R2" :=
  ⟨by decide, by decide, by decide⟩

/-- C6 amended: restricted to event sequences in which every `join-room`
is issued by a session not currently mapped to a room (at most one
active join per connection — the guard broken by the counterexample's
double join), every state reachable by join-room, leave-room and
disconnect events has each participant id in at most one room's
roster. -/
theorem C6_single_room_invariant (evs : List REvent)
    (hok : OkFrom initState evs) (s k1 k2 : String) (r1 r2 : Room)
    (p1 p2 : Participant)
    (h1 : mapGet (runTrace initState evs).rooms k1 = some r1)
    (h2 : mapGet (runTrace initState evs).rooms k2 = some r2)
    (hp1 : p1 ∈ r1.participants) (hp2 : p2 ∈ r2.participants)
    (hid1 : p1.id = s) (hid2 : p2.id = s) : k1 = k2 := by
  have hInv := inv_runTrace evs initState inv_initState hok
  obtain ⟨i1, hi1, hr1⟩ := hInv k1 r1 p1 h1 hp1
  obtain ⟨i2, hi2, hr2⟩ := hInv k2 r2 p2 h2 hp2
  rw [hid1] at hi1
  rw [hid2] at hi2
  rw [hi1] at hi2
  injection hi2 with hi2
  rw [← hr1, ← hr2, hi2]

/-- C6 witness: a guarded two-join trace, and the invariant applied to
participant `a` of room `R`. -/
theorem C6_single_room_invariant_witness :
    OkFrom initState c6trW ∧ ("R" : String) = "R" :=
  ⟨by decide,
    C6_single_room_invariant c6trW (by decide) "a" "R" "R"
      ⟨"R", [⟨"a", "A", 0, false, false⟩, ⟨"b", "B", 1, false, false⟩], [], 0⟩
      ⟨"R", [⟨"a", "A", 0, false, false⟩, ⟨"b", "B", 1, false, false⟩], [], 0⟩
      ⟨"a", "A", 0, false, false⟩ ⟨"a", "A", 0, false, false⟩
      (by decide) (by decide) (by decide) (by decide) rfl rfl⟩

/-- C8 counterexample: a `join-room` with an empty display name is not
rejected: the room is created, a participant with the empty name is added
to the roster and to the session map, and the handler emits `joined-room`
followed by `participants-updated` — no error event of any kind. -/
theorem C8_counterexample :
    mapGet (joinRoom (connectSocket initState "a") "a" "R" "" 0).1.rooms "R" =
      some ⟨"R", [⟨"a", "", 0, false, false⟩], [], 0⟩ ∧
    mapGet (joinRoom (connectSocket initState "a") "a" "R" "" 0).1.participants
      "a" = some ⟨"R", ""⟩ ∧
    (joinRoom (connectSocket initState "a") "a" "R" "" 0).2 =
      [⟨"a", .joinedRoom "R" "a" [⟨"a", "", 0, false, false⟩] []⟩,
        ⟨"a", .participantsUpdated [⟨"a", "", 0, false, false⟩]⟩] :=
  ⟨by decide, by decide, by decide⟩

/-- C8 amended: the `join-room` handler performs no display-name
validation at all: from any state, a join with the empty display name
succeeds — the participant is added to the roster under the empty name,
the session-to-room mapping is recorded, and no `error` event is emitted
(the handler's only error path is an exception its body cannot raise). -/
theorem C8_join_no_validation (st : ServerState) (s roomId : String)
    (now : Nat) :
    (∃ r, mapGet (joinRoom st s roomId "" now).1.rooms roomId = some r ∧
      (⟨s, "", now, false, false⟩ : Participant) ∈ r.participants) ∧
    mapGet (joinRoom st s roomId "" now).1.participants s =
      some ⟨roomId, ""⟩ ∧
    (∀ e ∈ (joinRoom st s roomId "" now).2, ∀ m, e.ev ≠ .errorMsg m) := by
  have hsome : (mapGet (if mapHas st.rooms roomId then st.rooms
      else mapSet st.rooms roomId ⟨roomId, [], [], now⟩) roomId).isSome := by
    by_cases hhas : mapHas st.rooms roomId = true
    · rw [if_pos hhas, ← mapHas_eq_isSome]
      exact hhas
    · rw [if_neg hhas, mapGet_set_self]
      rfl
  obtain ⟨room, hroom⟩ := Option.isSome_iff_exists.mp hsome
  obtain ⟨hrooms, hparts⟩ := joinRoom_fields st s roomId "" now room hroom
  refine ⟨?_, ?_, ?_⟩
  · refine ⟨{ room with participants := room.participants ++
        [⟨s, "", now, false, false⟩] }, ?_, ?_⟩
    · rw [hrooms]
      exact mapGet_set_self _ _ _
    · exact List.mem_append_right _ (List.mem_singleton.mpr rfl)
  · rw [hparts]
    exact mapGet_set_self _ _ _
  · obtain ⟨stX, hemits⟩ := joinRoom_emits_shape st s roomId "" now room hroom
    rw [hemits]
    intro e he m
    rcases List.mem_cons.mp he with he0 | he1
    · subst he0
      intro hcontra
      exact Event.noConfusion hcontra
    · rcases List.mem_append.mp he1 with he2 | he3
      · have := (emitExcept_elim stX roomId s _ e he2).1
        rw [this]
        intro hcontra
        exact Event.noConfusion hcontra
      · have := emitAll_elim stX roomId _ e he3
        rw [this]
        intro hcontra
        exact Event.noConfusion hcontra

/-- C8 witness: a concrete empty-name join succeeds, records the mapping,
and the first emitted event is not an error event. -/
theorem C8_join_no_validation_witness :
    mapGet (joinRoom (connectSocket initState "b") "b" "Q" "" 5).1.participants
      "b" = some ⟨"Q", ""⟩ ∧
    (⟨"b", .joinedRoom "Q" "b" [⟨"b", "", 5, false, false⟩] []⟩ : Emit).ev ≠
      .errorMsg "Failed to join room" :=
  ⟨(C8_join_no_validation (connectSocket initState "b") "b" "Q" 5).2.1,
    (C8_join_no_validation (connectSocket initState "b") "b" "Q" 5).2.2
      ⟨"b", .joinedRoom "Q" "b" [⟨"b", "", 5, false, false⟩] []⟩
      (by decide) "Failed to join room"⟩

/-- C9 counterexample: the client's `handleIceCandidate` has no
pending-candidate buffer.  With a peer connection for `b` whose remote
description is not yet set, an incoming candidate leaves the manager
state entirely unchanged — the candidate is recorded nowhere, so nothing
can be applied once the remote description arrives; with no peer
connection at all it is likewise dropped. -/
theorem C9_counterexample :
    handleIceCandidate ⟨[("b", ⟨none, []⟩)]⟩ "cand1" "b" =
      ⟨[("b", ⟨none, []⟩)]⟩ ∧
    handleIceCandidate ⟨[]⟩ "cand1" "b" = (⟨[]⟩ : ManagerState) :=
  ⟨by decide, by decide⟩

/-- C9 amended: when the peer connection for the sender exists and has a
remote description, the incoming ICE candidate is applied immediately;
in every other case — no peer connection, or no remote description yet —
the candidate is discarded and the manager state is unchanged: no
`pendingIceCandidates` buffer exists and nothing is replayed later. -/
theorem C9_ice_no_buffer (st : ManagerState) (cand sender : String) :
    (mapGet st.peerConnections sender = none →
      handleIceCandidate st cand sender = st) ∧
    (∀ pc, mapGet st.peerConnections sender = some pc →
      pc.remoteDescription = none →
      handleIceCandidate st cand sender = st) ∧
    (∀ pc d, mapGet st.peerConnections sender = some pc →
      pc.remoteDescription = some d →
      handleIceCandidate st cand sender =
        ⟨mapSet st.peerConnections sender
          ({ pc with addedCandidates := pc.addedCandidates ++ [cand] })⟩) := by
  refine ⟨?_, ?_, ?_⟩
  · intro hn
    unfold handleIceCandidate
    simp only [hn]
  · intro pc hpc hrd
    unfold handleIceCandidate addIceCandidate
    simp only [hpc, hrd]
  · intro pc d hpc hrd
    unfold handleIceCandidate addIceCandidate
    simp only [hpc, hrd]

/-- C9 witness: with a remote description present the candidate is
appended to the connection's candidate list. -/
theorem C9_ice_no_buffer_witness :
    mapGet (⟨[("b", ⟨some "sdp", []⟩)]⟩ : ManagerState).peerConnections "b" =
      some ⟨some "sdp", []⟩ ∧
    handleIceCandidate ⟨[("b", ⟨some "sdp", []⟩)]⟩ "c1" "b" =
      ⟨[("b", ⟨some "sdp", ["c1"]⟩)]⟩ :=
  ⟨by decide,
    ((C9_ice_no_buffer ⟨[("b", ⟨some "sdp", []⟩)]⟩ "c1" "b").2.2
      ⟨some "sdp", []⟩ "sdp" (by decide) rfl).trans (by decide)⟩

/-- C10 counterexample: a relay whose target id equals the sender's own
id is not forwarded even though that target is connected: the transport
broadcast excludes the emitting socket, so the delivery list is empty
for all three relay kinds. -/
theorem C10_counterexample :
    "a" ∈ (connectSocket initState "a").connected ∧
    (webrtcOffer (connectSocket initState "a") "a" "a" "sdp").2 = [] ∧
    (webrtcAnswer (connectSocket initState "a") "a" "a" "sdp").2 = [] ∧
    (webrtcIceCandidate (connectSocket initState "a") "a" "a" "c").2 = [] :=
  ⟨by decide, by decide, by decide, by decide⟩

/-- C10 amended: the relay handlers perform no room-membership or room-id
check: whenever the target `T` is connected (hence subscribed to its own
id channel) and differs from the sender `S`, an offer, answer or ICE
relay from `S` naming `T` is delivered to `T` — no hypothesis relates
`S` and `T` through any room, and the witness exercises the theorem with
the two sockets sitting in different rooms.  The self-addressed relay
`T = S` is the one exception: the transport broadcast excludes the
sender, so it is dropped. -/
theorem C10_relay_no_membership_check (st : ServerState)
    (S T payload : String) (hconn : T ∈ st.connected)
    (hch : (T, T) ∈ st.channels) (hne : T ≠ S) :
    (⟨T, .webrtcOfferEv S payload⟩ : Emit) ∈ (webrtcOffer st S T payload).2 ∧
    (⟨T, .webrtcAnswerEv S payload⟩ : Emit) ∈
      (webrtcAnswer st S T payload).2 ∧
    (⟨T, .webrtcIceCandidateEv S payload⟩ : Emit) ∈
      (webrtcIceCandidate st S T payload).2 :=
  ⟨emitExcept_intro st T S _ T hconn hch hne,
    emitExcept_intro st T S _ T hconn hch hne,
    emitExcept_intro st T S _ T hconn hch hne⟩

/-- C10 witness: `a` and `b` sit in different rooms (`R1` and `R2`), yet
the offer relay from `a` to `b` is delivered. -/
theorem C10_relay_no_membership_check_witness :
    mapGet stDiffW.participants "a" = some ⟨"R1", "A"⟩ ∧
    mapGet stDiffW.participants "b" = some ⟨"R2", "B"⟩ ∧
    (⟨"b", .webrtcOfferEv "a" "sdp"⟩ : Emit) ∈
      (webrtcOffer stDiffW "a" "b" "sdp").2 :=
  ⟨by decide, by decide,
    (C10_relay_no_membership_check stDiffW "a" "b" "sdp"
      (by decide) (by decide) (by decide)).1⟩

end ProLiteMeet
